import Mathlib

/-!
Verification of the moving-average crossover backtest engine of this repository.

The core is the simulation loop of `DMA_trading_strategy_backtester.py`
(Nifty 100 - 15 years variant): it walks a time-ordered price series, computes
20/50/100/200-day simple moving averages, and runs a single-position state
machine (`in_market`, `buy_price`, `current_holding`) that buys when
close < DMA20 < DMA50 < DMA100 < DMA200 (only past the warm-up, `i > 199`),
sells when DMA200 < DMA100 < DMA50 < DMA20 < close and close > buy_price, and
reports a still-open position at series end as a `Holding` row.

Modelling conventions:
- prices and money amounts are exact rationals (the scripts use Python floats;
  the claims under test are about exact arithmetic identities, which hold
  in ℚ by the same algebraic steps the floats approximate);
- the display rounding `round(x, 2)` applied when rows are printed/saved is
  omitted (it is presentation only and applied uniformly to stored values);
- timestamps are day numbers (ℕ); `(exit - entry).days` becomes integer
  subtraction of day numbers;
- Python's float `**` is an uninterpreted parameter `fpow : ℚ → ℚ → ℚ` of the
  engine: no claim depends on its values, only on the arguments passed to it;
- a NaN close is `none` in a raw input row; `data.dropna(subset=['Close'])`
  is the `filterMap` performed by `dropnaClose`.
-/

/-- `investment = 100000`, the fixed amount put into every buy. -/
def investment : ℚ := 100000

/-- Status column of a trade row: `'Completed'` or `'Holding'`. -/
inductive TradeStatus where
  | completed
  | holding
deriving DecidableEq

/-- One row of the trade summary, as appended by the simulation loop.
`exit_ts = none` is the `'Still Holding'` sentinel and `annual_gain = none`
the empty `''` cell.  `duration_days` is the loop's `duration_in_days`
local and `quantity` the `current_holding` at emission time (both are
computed by the script; keeping them on the row lets theorems speak about
them directly). -/
structure TradeRecord where
  entry_ts : ℕ
  exit_ts : Option ℕ
  duration_days : ℤ
  holding_months : ℚ
  buy_price : ℚ
  sell_price : ℚ
  quantity : ℚ
  profit_or_loss : ℚ
  annual_gain : Option ℚ
  status : TradeStatus
deriving DecidableEq

/-- The mutable state of the simulation loop. -/
structure SimState where
  in_market : Bool
  buy_price : ℚ
  current_holding : ℚ
  entry_ts : ℕ
  trades : List TradeRecord
  buy_markers : List (ℕ × ℚ)
  sell_markers : List (ℕ × ℚ)
deriving DecidableEq

/-- One cleaned price row: timestamp (day number) and close. -/
structure PricePoint where
  ts : ℕ
  close : ℚ
deriving DecidableEq

/-- One raw input row; `close = none` models a NaN/missing close. -/
structure RawPoint where
  ts : ℕ
  close : Option ℚ
deriving DecidableEq

/-- `data.dropna(subset=['Close'])`: keep exactly the rows whose close is
present. -/
def dropnaClose (raw : List RawPoint) : List PricePoint :=
  raw.filterMap fun p => p.close.map fun c => ⟨p.ts, c⟩

/-- Value of `data['Close'].rolling(window=w).mean()` at row `i`, where it is
defined: the mean of the `w` closes at rows `i, i-1, …, i-w+1`.  The engine
only reads it at rows `i > 199 ≥ w - 1`, where the window is full. -/
def smaAt (closes : List ℚ) (w i : ℕ) : ℚ :=
  (((List.range w).map fun j => closes.getD (i - j) 0).sum) / (w : ℚ)

/-- `data['Close'].rolling(window=w).mean()` at row `i`, with its NaN region:
`none` until a full window of `w` closes ending at `i` exists. -/
def rollingMean (closes : List ℚ) (w i : ℕ) : Option ℚ :=
  if w ≤ i + 1 ∧ i < closes.length then some (smaAt closes w i) else none

/-- Modelled from the spec's words (§4.1) for comparison with `rollingMean`:
the simple moving average over the `w` most recent closes ending at `i`,
written as the mean of the slice `closes[i+1-w … i]`, undefined when fewer
than `w` points exist. -/
def smaSpec (closes : List ℚ) (w i : ℕ) : Option ℚ :=
  if w ≤ i + 1 ∧ i < closes.length then
    some ((((closes.take (i + 1)).drop (i + 1 - w)).sum) / (w : ℚ))
  else none

/-- The buy guard of the loop:
`Close < DMA_20 < DMA_50 < DMA_100 < DMA_200` at row `i`. -/
def buyCond (closes : List ℚ) (i : ℕ) : Prop :=
  closes.getD i 0 < smaAt closes 20 i ∧ smaAt closes 20 i < smaAt closes 50 i ∧
  smaAt closes 50 i < smaAt closes 100 i ∧ smaAt closes 100 i < smaAt closes 200 i

instance (closes : List ℚ) (i : ℕ) : Decidable (buyCond closes i) := by
  unfold buyCond; infer_instance

/-- The sell guard of the loop:
`DMA_200 < DMA_100 < DMA_50 < DMA_20 < Close` and `Close > buy_price`
at row `i`. -/
def sellCond (closes : List ℚ) (i : ℕ) (bp : ℚ) : Prop :=
  smaAt closes 200 i < smaAt closes 100 i ∧ smaAt closes 100 i < smaAt closes 50 i ∧
  smaAt closes 50 i < smaAt closes 20 i ∧ smaAt closes 20 i < closes.getD i 0 ∧
  bp < closes.getD i 0

instance (closes : List ℚ) (i : ℕ) (bp : ℚ) : Decidable (sellCond closes i bp) := by
  unfold sellCond; infer_instance

/-- The `'Completed'` row appended when the sell branch fires at row `i`.
`annual_gain` mirrors the script: when `duration_in_days > 0` it is
`((current_holding*sell_price/investment) ** (1/(duration/365)) - 1) * 100`,
otherwise the script stores the number `0`. -/
def mkCompleted (fpow : ℚ → ℚ → ℚ) (closes : List ℚ) (tss : List ℕ) (i : ℕ)
    (s : SimState) : TradeRecord :=
  let sp := closes.getD i 0
  let et := tss.getD i 0
  let d : ℤ := (et : ℤ) - (s.entry_ts : ℤ)
  { entry_ts := s.entry_ts, exit_ts := some et, duration_days := d,
    holding_months := (d : ℚ) / 30, buy_price := s.buy_price, sell_price := sp,
    quantity := s.current_holding,
    profit_or_loss := s.current_holding * sp - investment,
    annual_gain := some (if 0 < d then
      (fpow (s.current_holding * sp / investment) (1 / ((d : ℚ) / 365)) - 1) * 100 else 0),
    status := TradeStatus.completed }

/-- One iteration of `for i in range(len(data))`: the
`if not in_market and i > 199: … elif in_market and i > 199: …` body. -/
def step (fpow : ℚ → ℚ → ℚ) (closes : List ℚ) (tss : List ℕ) (i : ℕ)
    (s : SimState) : SimState :=
  if s.in_market = false ∧ 199 < i then
    if buyCond closes i then
      { s with buy_price := closes.getD i 0,
               current_holding := investment / closes.getD i 0,
               entry_ts := tss.getD i 0,
               in_market := true,
               buy_markers := s.buy_markers ++ [(tss.getD i 0, closes.getD i 0)] }
    else s
  else if s.in_market = true ∧ 199 < i then
    if sellCond closes i s.buy_price then
      { s with trades := s.trades ++ [mkCompleted fpow closes tss i s],
               sell_markers := s.sell_markers ++ [(tss.getD i 0, closes.getD i 0)],
               in_market := false, buy_price := 0, current_holding := 0 }
    else s
  else s

/-- State before the loop: flat, zero holdings, empty ledger. -/
def initState : SimState := ⟨false, 0, 0, 0, [], [], []⟩

/-- The loop run over rows `0, 1, …, n-1`. -/
def runUpTo (fpow : ℚ → ℚ → ℚ) (closes : List ℚ) (tss : List ℕ) (n : ℕ) : SimState :=
  (List.range n).foldl (fun s i => step fpow closes tss i s) initState

/-- The whole loop, `for i in range(len(data))`. -/
def runLoop (fpow : ℚ → ℚ → ℚ) (closes : List ℚ) (tss : List ℕ) : SimState :=
  runUpTo fpow closes tss closes.length

/-- The `'Holding'` row appended after the loop when still in the market:
valued at the last close and last timestamp, empty gain cell, `'Still
Holding'` exit sentinel. -/
def mkHolding (closes : List ℚ) (tss : List ℕ) (s : SimState) : TradeRecord :=
  let cp := closes.getD (closes.length - 1) 0
  let lt := tss.getD (tss.length - 1) 0
  let d : ℤ := (lt : ℤ) - (s.entry_ts : ℤ)
  { entry_ts := s.entry_ts, exit_ts := none, duration_days := d,
    holding_months := (d : ℚ) / 30, buy_price := s.buy_price, sell_price := cp,
    quantity := s.current_holding,
    profit_or_loss := s.current_holding * cp - investment,
    annual_gain := none, status := TradeStatus.holding }

/-- Everything one run of the script produces for one symbol. -/
structure RunResult where
  trades : List TradeRecord
  buy_markers : List (ℕ × ℚ)
  sell_markers : List (ℕ × ℚ)
  in_market_end : Bool
  unrealized_pnl : ℚ
deriving DecidableEq

/-- The close column of a cleaned series. -/
def closesOf (series : List PricePoint) : List ℚ := series.map PricePoint.close

/-- The timestamp column of a cleaned series. -/
def tssOf (series : List PricePoint) : List ℕ := series.map PricePoint.ts

/-- Full simulation over a cleaned series: the loop, then the end-of-series
handling (`if in_market:` append the `'Holding'` row and compute
`unrealized_pnl = current_holding * last_close - investment`). -/
def simulate (fpow : ℚ → ℚ → ℚ) (series : List PricePoint) : RunResult :=
  let closes := closesOf series
  let tss := tssOf series
  let s := runLoop fpow closes tss
  if s.in_market = true then
    { trades := s.trades ++ [mkHolding closes tss s],
      buy_markers := s.buy_markers, sell_markers := s.sell_markers,
      in_market_end := true,
      unrealized_pnl := s.current_holding * closes.getD (closes.length - 1) 0 - investment }
  else
    { trades := s.trades, buy_markers := s.buy_markers,
      sell_markers := s.sell_markers, in_market_end := false, unrealized_pnl := 0 }

/-- Simulation over a raw series: drop the NaN-close rows, then simulate. -/
def simulateRaw (fpow : ℚ → ℚ → ℚ) (raw : List RawPoint) : RunResult :=
  simulate fpow (dropnaClose raw)

/-- `'Total Profit/Loss'` of the consolidated summary:
`trades_df['Profit/Loss'].sum()` — the sum over ALL rows of the trade table
(the `'Holding'` row included when present). -/
def totalProfit (r : RunResult) : ℚ :=
  (r.trades.map TradeRecord.profit_or_loss).sum

/-- Sum of `profit_or_loss` over the `'Completed'` rows only. -/
def completedProfit (r : RunResult) : ℚ :=
  ((r.trades.filter fun t => t.status == TradeStatus.completed).map
    TradeRecord.profit_or_loss).sum

/-- `'Number of Times Entered Market'` of the consolidated summary: the count
of `'Completed'` rows, plus one when still in the market. -/
def numberOfEntries (r : RunResult) : ℕ :=
  (r.trades.filter fun t => t.status == TradeStatus.completed).length +
    (if r.in_market_end = true then 1 else 0)

/-- `'Unrealized P/L'` of the consolidated summary: the unrealized amount when
still in the market, else the empty cell. -/
def unrealizedFinal (r : RunResult) : Option ℚ :=
  if r.in_market_end = true then some r.unrealized_pnl else none

/-! The accumulate-into-one-position variant:
`TradeAnalyzer.calculate_trades` of `backtest_20_days_from_bse_csv.py`.
Buys stack into a single `holdings` counter; a sell liquidates all of it;
the `if Buy_Signal: … elif Sell_Signal and holdings > 0: …` shape admits at
most one action per row. -/

/-- One indicator-augmented row of the BSE csv variant. -/
structure BseRow where
  date : ℕ
  close : ℚ
  buy_signal : Bool
  sell_signal : Bool
deriving DecidableEq

/-- Action column of the BSE csv variant's trade list. -/
inductive BseAction where
  | buy
  | sell
deriving DecidableEq

/-- One entry of the BSE csv variant's `trades` list. -/
structure BseTrade where
  date : ℕ
  action : BseAction
  shares : ℤ
  price : ℚ
  value : ℚ
  holdings_after : ℤ
  running_pnl : ℚ
deriving DecidableEq

/-- Loop state of `calculate_trades`. -/
structure BseState where
  holdings : ℤ
  running_investment : ℚ
  running_returns : ℚ
  current_buy_value : ℚ
  trades : List BseTrade
deriving DecidableEq

/-- One iteration of the `calculate_trades` loop.  `int(10000/price)` is
`Int.floor` here: prices are positive in the data this script reads, and on
positive arguments Python's `int()` truncation is the floor. -/
def bseStep (s : BseState) (row : BseRow) : BseState :=
  if row.buy_signal = true then
    let shares : ℤ := ⌊(10000 : ℚ) / row.close⌋
    let tv : ℚ := (shares : ℚ) * row.close
    { holdings := s.holdings + shares,
      running_investment := s.running_investment + tv,
      running_returns := s.running_returns,
      current_buy_value := s.current_buy_value + tv,
      trades := s.trades ++ [⟨row.date, BseAction.buy, shares, row.close, tv,
        s.holdings + shares, s.running_returns - (s.running_investment + tv)⟩] }
  else if row.sell_signal = true ∧ 0 < s.holdings then
    let sv : ℚ := (s.holdings : ℚ) * row.close
    { holdings := 0,
      running_investment := s.running_investment,
      running_returns := s.running_returns + sv,
      current_buy_value := 0,
      trades := s.trades ++ [⟨row.date, BseAction.sell, s.holdings, row.close, sv,
        0, (s.running_returns + sv) - s.running_investment⟩] }
  else s

/-! Concrete inputs used by witnesses and counterexamples. -/

/-- A fixed stand-in for Python's float `**` (its values never matter below). -/
def fpow0 : ℚ → ℚ → ℚ := fun _ _ => 0

/-- 202 strictly falling closes 401, 400, …, 200 on days 0, 1, …, 201: the
stacked buy condition first holds at row 200 and no sell ever fires, so the
run ends still holding. -/
def seriesA : List PricePoint := (List.range 202).map fun i => ⟨i, ((401 - i : ℕ) : ℚ)⟩

/-- 201 falling closes on days 0…200, then a spike close of 100000 recorded
with the duplicated day number 200: the buy fires at row 200 and the sell at
row 201 with a zero-day holding duration. -/
def seriesB : List PricePoint :=
  ((List.range 201).map fun i => ⟨i, ((401 - i : ℕ) : ℚ)⟩) ++ [⟨200, 100000⟩]

/-- Like `seriesB` but with the spike on day 201: a one-day completed trade. -/
def seriesC : List PricePoint :=
  ((List.range 201).map fun i => ⟨i, ((401 - i : ℕ) : ℚ)⟩) ++ [⟨201, 100000⟩]

/-- `seriesA` as raw rows, with one NaN-close row appended. -/
def rawD : List RawPoint :=
  ((List.range 202).map fun i => ⟨i, some ((401 - i : ℕ) : ℚ)⟩) ++ [⟨1000, none⟩]

/-! Run invariant: what is true of every state the loop can reach. -/

/-- Every `'Completed'` row emitted while walking rows `0 … n-1` came from a
buy at some row `j` and a sell at a later row `k`, both past the warm-up
(`199 < j < k`), and its fields are exactly the ones the loop computes
there. -/
def CompletedSpec (fpow : ℚ → ℚ → ℚ) (closes : List ℚ) (tss : List ℕ) (n : ℕ)
    (t : TradeRecord) : Prop :=
  t.status = TradeStatus.completed ∧
  ∃ j k, 199 < j ∧ j < k ∧ k < n ∧ k < closes.length ∧
    t.buy_price = closes.getD j 0 ∧ t.entry_ts = tss.getD j 0 ∧
    t.quantity = investment / closes.getD j 0 ∧
    t.sell_price = closes.getD k 0 ∧ t.exit_ts = some (tss.getD k 0) ∧
    t.buy_price < t.sell_price ∧
    t.profit_or_loss = t.quantity * t.sell_price - investment ∧
    t.duration_days = (tss.getD k 0 : ℤ) - (tss.getD j 0 : ℤ) ∧
    t.annual_gain = some (if 0 < t.duration_days then
      (fpow (t.quantity * t.sell_price / investment)
        (1 / ((t.duration_days : ℚ) / 365)) - 1) * 100
      else 0)

/-- Invariant of the loop state after processing rows `0 … n-1`. -/
structure RunInv (fpow : ℚ → ℚ → ℚ) (closes : List ℚ) (tss : List ℕ) (n : ℕ)
    (s : SimState) : Prop where
  mkt : s.in_market = true → ∃ j, 199 < j ∧ j < n ∧ j < closes.length ∧
    s.buy_price = closes.getD j 0 ∧ s.current_holding = investment / closes.getD j 0 ∧
    s.entry_ts = tss.getD j 0
  ledger : ∀ t ∈ s.trades, CompletedSpec fpow closes tss n t
  sellsLen : s.sell_markers.length = s.trades.length
  buysLen : s.buy_markers.length = s.sell_markers.length +
    (if s.in_market = true then 1 else 0)
  buyMk : ∀ m ∈ s.buy_markers, ∃ j, 199 < j ∧ j < n ∧ j < closes.length ∧
    m.1 = tss.getD j 0 ∧ m.2 = closes.getD j 0
  sellMk : ∀ m ∈ s.sell_markers, ∃ j, 199 < j ∧ j < n ∧ j < closes.length ∧
    m.1 = tss.getD j 0 ∧ m.2 = closes.getD j 0

theorem completedSpec_mono {fpow : ℚ → ℚ → ℚ} {closes : List ℚ} {tss : List ℕ}
    {n m : ℕ} {t : TradeRecord} (h : CompletedSpec fpow closes tss n t)
    (hnm : n ≤ m) : CompletedSpec fpow closes tss m t := by
  obtain ⟨hs, j, k, h1, h2, h3, hrest⟩ := h
  exact ⟨hs, j, k, h1, h2, lt_of_lt_of_le h3 hnm, hrest⟩

theorem runInv_mono {fpow : ℚ → ℚ → ℚ} {closes : List ℚ} {tss : List ℕ}
    {n m : ℕ} {s : SimState} (h : RunInv fpow closes tss n s) (hnm : n ≤ m) :
    RunInv fpow closes tss m s := by
  refine ⟨?_, ?_, h.sellsLen, h.buysLen, ?_, ?_⟩
  · intro hm
    obtain ⟨j, hj1, hj2, hj3⟩ := h.mkt hm
    exact ⟨j, hj1, lt_of_lt_of_le hj2 hnm, hj3⟩
  · exact fun t ht => completedSpec_mono (h.ledger t ht) hnm
  · intro x hx
    obtain ⟨j, hj1, hj2, hj3⟩ := h.buyMk x hx
    exact ⟨j, hj1, lt_of_lt_of_le hj2 hnm, hj3⟩
  · intro x hx
    obtain ⟨j, hj1, hj2, hj3⟩ := h.sellMk x hx
    exact ⟨j, hj1, lt_of_lt_of_le hj2 hnm, hj3⟩

theorem runUpTo_succ (fpow : ℚ → ℚ → ℚ) (closes : List ℚ) (tss : List ℕ) (n : ℕ) :
    runUpTo fpow closes tss (n + 1) = step fpow closes tss n (runUpTo fpow closes tss n) := by
  simp [runUpTo, List.range_succ]

theorem inv_init (fpow : ℚ → ℚ → ℚ) (closes : List ℚ) (tss : List ℕ) :
    RunInv fpow closes tss 0 initState := by
  refine ⟨?_, ?_, rfl, ?_, ?_, ?_⟩
  · intro hm; simp [initState] at hm
  · intro t ht; simp [initState] at ht
  · simp [initState]
  · intro x hx; simp [initState] at hx
  · intro x hx; simp [initState] at hx

theorem inv_step {fpow : ℚ → ℚ → ℚ} {closes : List ℚ} {tss : List ℕ} {n : ℕ}
    (hn : n < closes.length) {s : SimState} (h : RunInv fpow closes tss n s) :
    RunInv fpow closes tss (n + 1) (step fpow closes tss n s) := by
  unfold step
  by_cases h1 : s.in_market = false ∧ 199 < n
  · rw [if_pos h1]
    by_cases hb : buyCond closes n
    · rw [if_pos hb]
      refine ⟨?_, ?_, h.sellsLen, ?_, ?_, ?_⟩
      · intro _
        exact ⟨n, h1.2, Nat.lt_succ_self n, hn, rfl, rfl, rfl⟩
      · exact fun t ht => completedSpec_mono (h.ledger t ht) (Nat.le_succ n)
      · simp only [List.length_append, List.length_cons, List.length_nil]
        rw [h.buysLen, h1.1]
        simp
      · intro m hm
        rcases List.mem_append.1 hm with hm | hm
        · obtain ⟨j, hj1, hj2, hj3⟩ := h.buyMk m hm
          exact ⟨j, hj1, Nat.lt_succ_of_lt hj2, hj3⟩
        · simp only [List.mem_singleton] at hm
          subst hm
          exact ⟨n, h1.2, Nat.lt_succ_self n, hn, rfl, rfl⟩
      · intro m hm
        obtain ⟨j, hj1, hj2, hj3⟩ := h.sellMk m hm
        exact ⟨j, hj1, Nat.lt_succ_of_lt hj2, hj3⟩
    · rw [if_neg hb]; exact runInv_mono h (Nat.le_succ n)
  · rw [if_neg h1]
    by_cases h2 : s.in_market = true ∧ 199 < n
    · rw [if_pos h2]
      by_cases hsl : sellCond closes n s.buy_price
      · rw [if_pos hsl]
        obtain ⟨j, hj199, hjn, hjlen, hbp, hch, hets⟩ := h.mkt h2.1
        refine ⟨?_, ?_, ?_, ?_, ?_, ?_⟩
        · intro hfalse; simp at hfalse
        · intro t ht
          rcases List.mem_append.1 ht with ht | ht
          · exact completedSpec_mono (h.ledger t ht) (Nat.le_succ n)
          · simp only [List.mem_singleton] at ht
            subst ht
            have hlt : closes.getD j 0 < closes.getD n 0 := by
              rw [← hbp]; exact hsl.2.2.2.2
            refine ⟨rfl, j, n, hj199, hjn, Nat.lt_succ_self n, hn, ?_⟩
            simp only [mkCompleted, hets, hbp, hch, eq_self_iff_true, and_true, true_and]
            exact hlt
        · simp only [List.length_append, List.length_cons, List.length_nil,
            h.sellsLen]
        · rw [h.buysLen, h2.1]
          simp
        · intro m hm
          obtain ⟨j2, hj1, hj2, hj3⟩ := h.buyMk m hm
          exact ⟨j2, hj1, Nat.lt_succ_of_lt hj2, hj3⟩
        · intro m hm
          rcases List.mem_append.1 hm with hm | hm
          · obtain ⟨j2, hj1, hj2, hj3⟩ := h.sellMk m hm
            exact ⟨j2, hj1, Nat.lt_succ_of_lt hj2, hj3⟩
          · simp only [List.mem_singleton] at hm
            subst hm
            exact ⟨n, h2.2, Nat.lt_succ_self n, hn, rfl, rfl⟩
      · rw [if_neg hsl]; exact runInv_mono h (Nat.le_succ n)
    · rw [if_neg h2]; exact runInv_mono h (Nat.le_succ n)

theorem runUpTo_inv (fpow : ℚ → ℚ → ℚ) (closes : List ℚ) (tss : List ℕ) :
    ∀ n, n ≤ closes.length → RunInv fpow closes tss n (runUpTo fpow closes tss n)
  | 0, _ => inv_init fpow closes tss
  | n + 1, hn => by
      rw [runUpTo_succ]
      exact inv_step (Nat.lt_of_succ_le hn)
        (runUpTo_inv fpow closes tss n (Nat.le_of_succ_le hn))

theorem runLoop_inv (fpow : ℚ → ℚ → ℚ) (closes : List ℚ) (tss : List ℕ) :
    RunInv fpow closes tss closes.length (runLoop fpow closes tss) :=
  runUpTo_inv fpow closes tss closes.length le_rfl

/-! Helper lemmas shared by several claims. -/

theorem filter_completed_of_all {l : List TradeRecord}
    (h : ∀ t ∈ l, t.status = TradeStatus.completed) :
    l.filter (fun t => t.status == TradeStatus.completed) = l :=
  List.filter_eq_self.mpr fun t ht => by rw [h t ht]; exact beq_self_eq_true _

theorem runUpTo_eq_init {fpow : ℚ → ℚ → ℚ} {closes : List ℚ} {tss : List ℕ} :
    ∀ {n : ℕ}, n ≤ 200 → runUpTo fpow closes tss n = initState := by
  intro n
  induction n with
  | zero => intro _; rfl
  | succ k ih =>
      intro hn
      rw [runUpTo_succ, ih (by omega)]
      have hk : ¬ 199 < k := by omega
      simp [step, initState, hk]

theorem sum_range_eq_sum_slice (closes : List ℚ) (i : ℕ) (hi : i < closes.length) :
    ∀ w, w ≤ i + 1 →
      ((List.range w).map fun j => closes.getD (i - j) 0).sum =
        ((closes.take (i + 1)).drop (i + 1 - w)).sum
  | 0, _ => by
      have hl : (closes.take (i + 1)).length ≤ i + 1 := by
        rw [List.length_take]; exact min_le_left _ _
      simp [List.drop_eq_nil_of_le hl]
  | w + 1, hw => by
      have hklen : i - w < closes.length := lt_of_le_of_lt (Nat.sub_le i w) hi
      have h1 : i + 1 - (w + 1) < (closes.take (i + 1)).length := by
        rw [List.length_take]
        exact Nat.lt_min.mpr ⟨by omega, by omega⟩
      rw [List.range_succ, List.map_append, List.sum_append,
        sum_range_eq_sum_slice closes i hi w (by omega),
        List.drop_eq_getElem_cons h1, List.sum_cons]
      have h2 : (closes.take (i + 1))[i + 1 - (w + 1)] = closes.getD (i - w) 0 := by
        rw [List.getElem_take]
        have h3 : i + 1 - (w + 1) = i - w := by omega
        simp only [h3]
        rw [List.getD_eq_getElem closes 0 hklen]
      have h4 : i + 1 - (w + 1) + 1 = i + 1 - w := by omega
      rw [h2, h4, List.map_cons, List.map_nil, List.sum_cons, List.sum_nil]
      ring

theorem rollingMean_eq_smaSpec (closes : List ℚ) (w i : ℕ) :
    rollingMean closes w i = smaSpec closes w i := by
  unfold rollingMean smaSpec
  by_cases hc : w ≤ i + 1 ∧ i < closes.length
  · rw [if_pos hc, if_pos hc]
    unfold smaAt
    rw [sum_range_eq_sum_slice closes i hc.2 w hc.1]
  · rw [if_neg hc, if_neg hc]

theorem smaSpec_causal (closes closes2 : List ℚ) (w i : ℕ)
    (h : closes.take (i + 1) = closes2.take (i + 1)) :
    smaSpec closes w i = smaSpec closes2 w i := by
  have hl := congrArg List.length h
  rw [List.length_take, List.length_take] at hl
  have hlen : (i < closes.length) ↔ (i < closes2.length) := by
    constructor
    · intro hi
      have hx : (i + 1) ⊓ closes2.length = i + 1 := by
        rw [← hl]; exact min_eq_left_iff.mpr hi
      exact min_eq_left_iff.mp hx
    · intro hi
      have hx : (i + 1) ⊓ closes.length = i + 1 := by
        rw [hl]; exact min_eq_left_iff.mpr hi
      exact min_eq_left_iff.mp hx
  unfold smaSpec
  by_cases hc : w ≤ i + 1 ∧ i < closes.length
  · have hc2 : w ≤ i + 1 ∧ i < closes2.length := ⟨hc.1, hlen.mp hc.2⟩
    rw [if_pos hc, if_pos hc2, h]
  · have hc2 : ¬(w ≤ i + 1 ∧ i < closes2.length) := fun hx => hc ⟨hx.1, hlen.mpr hx.2⟩
    rw [if_neg hc, if_neg hc2]

theorem simulate_market {fpow : ℚ → ℚ → ℚ} {series : List PricePoint}
    (hm : (runLoop fpow (closesOf series) (tssOf series)).in_market = true) :
    simulate fpow series =
      { trades := (runLoop fpow (closesOf series) (tssOf series)).trades ++
          [mkHolding (closesOf series) (tssOf series)
            (runLoop fpow (closesOf series) (tssOf series))],
        buy_markers := (runLoop fpow (closesOf series) (tssOf series)).buy_markers,
        sell_markers := (runLoop fpow (closesOf series) (tssOf series)).sell_markers,
        in_market_end := true,
        unrealized_pnl := (runLoop fpow (closesOf series) (tssOf series)).current_holding *
          (closesOf series).getD ((closesOf series).length - 1) 0 - investment } := by
  simp only [simulate]
  rw [if_pos hm]

theorem simulate_flat {fpow : ℚ → ℚ → ℚ} {series : List PricePoint}
    (hm : (runLoop fpow (closesOf series) (tssOf series)).in_market = false) :
    simulate fpow series =
      { trades := (runLoop fpow (closesOf series) (tssOf series)).trades,
        buy_markers := (runLoop fpow (closesOf series) (tssOf series)).buy_markers,
        sell_markers := (runLoop fpow (closesOf series) (tssOf series)).sell_markers,
        in_market_end := false,
        unrealized_pnl := 0 } := by
  simp only [simulate]
  rw [if_neg (by simp [hm])]

theorem holding_beq_completed :
    (TradeStatus.holding == TradeStatus.completed) = false := rfl

/-- C10: the consolidated `'Number of Times Entered Market'` equals the count
of `'Completed'` rows plus one when a position is still open at series end,
and this equals the number of buy transitions that fired during the walk. -/
theorem entries_count_eq_buy_count (fpow : ℚ → ℚ → ℚ) (series : List PricePoint) :
    numberOfEntries (simulate fpow series) = (simulate fpow series).buy_markers.length := by
  have hinv := runLoop_inv fpow (closesOf series) (tssOf series)
  have hall : ∀ t ∈ (runLoop fpow (closesOf series) (tssOf series)).trades,
      t.status = TradeStatus.completed := fun t ht => (hinv.ledger t ht).1
  cases hb : (runLoop fpow (closesOf series) (tssOf series)).in_market
  · rw [simulate_flat hb]
    simp only [numberOfEntries]
    rw [filter_completed_of_all hall]
    have hc := hinv.buysLen
    rw [hb] at hc
    simp only [hc, hinv.sellsLen]
  · rw [simulate_market hb]
    simp only [numberOfEntries]
    rw [List.filter_append, filter_completed_of_all hall]
    have hc := hinv.buysLen
    rw [hb] at hc
    simp only [hc, hinv.sellsLen]
    simp [mkHolding, List.filter, holding_beq_completed]

/-- C1 (amended): the consolidated `'Total Profit/Loss'` sums `Profit/Loss`
over ALL rows of the trade table, so when a position is still open at series
end it equals the completed-rows sum PLUS the unrealized P/L of the holding
row (which is also reported separately). -/
theorem totalProfit_eq_completed_add_unrealized (fpow : ℚ → ℚ → ℚ)
    (series : List PricePoint) :
    totalProfit (simulate fpow series) = completedProfit (simulate fpow series) +
      (if (simulate fpow series).in_market_end = true
        then (simulate fpow series).unrealized_pnl else 0) := by
  have hinv := runLoop_inv fpow (closesOf series) (tssOf series)
  have hall : ∀ t ∈ (runLoop fpow (closesOf series) (tssOf series)).trades,
      t.status = TradeStatus.completed := fun t ht => (hinv.ledger t ht).1
  cases hb : (runLoop fpow (closesOf series) (tssOf series)).in_market
  · rw [simulate_flat hb]
    simp only [totalProfit, completedProfit]
    rw [filter_completed_of_all hall]
    simp
  · rw [simulate_market hb]
    simp only [totalProfit, completedProfit]
    rw [List.map_append, List.sum_append, List.filter_append, filter_completed_of_all hall]
    simp [mkHolding, List.filter, holding_beq_completed]

theorem mem_loop_of_completed {fpow : ℚ → ℚ → ℚ} {series : List PricePoint}
    {t : TradeRecord} (ht : t ∈ (simulate fpow series).trades)
    (hst : t.status = TradeStatus.completed) :
    t ∈ (runLoop fpow (closesOf series) (tssOf series)).trades := by
  cases hb : (runLoop fpow (closesOf series) (tssOf series)).in_market
  · rw [simulate_flat hb] at ht
    exact ht
  · rw [simulate_market hb] at ht
    rcases List.mem_append.1 ht with h | h
    · exact h
    · rw [List.mem_singleton] at h
      rw [h] at hst
      exact absurd hst (by simp [mkHolding])

/-- C2: while LONG past the warm-up, the sell transition fires exactly when
the mirrored stacked ordering DMA200 < DMA100 < DMA50 < DMA20 < close holds
and close exceeds the entry price; consequently, with strictly increasing
timestamps, every completed trade exits strictly after its entry and never at
a price ≤ its entry price (entries only fire past row 199, so every row at
which a sell is evaluated satisfies `199 < i`). -/
theorem sell_characterization_and_no_loss :
    (∀ (fpow : ℚ → ℚ → ℚ) (closes : List ℚ) (tss : List ℕ) (i : ℕ) (s : SimState),
      s.in_market = true → 199 < i →
        ((step fpow closes tss i s).in_market = false ↔
          (smaAt closes 200 i < smaAt closes 100 i ∧
           smaAt closes 100 i < smaAt closes 50 i ∧
           smaAt closes 50 i < smaAt closes 20 i ∧
           smaAt closes 20 i < closes.getD i 0 ∧
           s.buy_price < closes.getD i 0))) ∧
    (∀ (fpow : ℚ → ℚ → ℚ) (series : List PricePoint),
      (tssOf series).Pairwise (· < ·) →
      ∀ t ∈ (simulate fpow series).trades, t.status = TradeStatus.completed →
        t.buy_price < t.sell_price ∧
        ∃ e, t.exit_ts = some e ∧ t.entry_ts < e) := by
  constructor
  · intro fpow closes tss i s hm hi
    unfold step
    rw [if_neg (by simp [hm]), if_pos ⟨hm, hi⟩]
    by_cases hsl : sellCond closes i s.buy_price
    · rw [if_pos hsl]
      simp only [sellCond] at hsl
      exact iff_of_true rfl hsl
    · rw [if_neg hsl]
      simp only [sellCond] at hsl
      exact iff_of_false (by simp [hm]) hsl
  · intro fpow series hpw t ht hst
    have hinv := runLoop_inv fpow (closesOf series) (tssOf series)
    have hmem := mem_loop_of_completed ht hst
    obtain ⟨-, j, k, hj199, hjk, hkn, hklen, hbp, hets, hq, hsp, hexit, hlt,
      hpnl, hdur, hgain⟩ := hinv.ledger t hmem
    refine ⟨hlt, (tssOf series).getD k 0, hexit, ?_⟩
    have hlen : (closesOf series).length = (tssOf series).length := by
      simp [closesOf, tssOf]
    have hk2 : k < (tssOf series).length := hlen ▸ hklen
    have hj2 : j < (tssOf series).length := lt_trans hjk hk2
    rw [hets, List.getD_eq_getElem _ _ hj2, List.getD_eq_getElem _ _ hk2]
    exact List.pairwise_iff_getElem.mp hpw j k hj2 hk2 hjk

/-- C3: while FLAT, the buy transition fires exactly when the row is past the
warm-up (`i > 199`, the 200-day average being first defined at row 199) and
close < DMA20 < DMA50 < DMA100 < DMA200; on firing the state becomes LONG
with quantity = investment/close (fractional), entry price = close and entry
date = the row's timestamp; and a series shorter than the warm-up window
produces an empty result, not an error. -/
theorem buy_characterization_and_short_series :
    (∀ (fpow : ℚ → ℚ → ℚ) (closes : List ℚ) (tss : List ℕ) (i : ℕ) (s : SimState),
      s.in_market = false →
        (((step fpow closes tss i s).in_market = true) ↔
          (199 < i ∧ closes.getD i 0 < smaAt closes 20 i ∧
            smaAt closes 20 i < smaAt closes 50 i ∧
            smaAt closes 50 i < smaAt closes 100 i ∧
            smaAt closes 100 i < smaAt closes 200 i))) ∧
    (∀ (fpow : ℚ → ℚ → ℚ) (closes : List ℚ) (tss : List ℕ) (i : ℕ) (s : SimState),
      s.in_market = false → 199 < i → buyCond closes i →
        step fpow closes tss i s =
          { s with buy_price := closes.getD i 0,
                   current_holding := investment / closes.getD i 0,
                   entry_ts := tss.getD i 0, in_market := true,
                   buy_markers := s.buy_markers ++ [(tss.getD i 0, closes.getD i 0)] }) ∧
    (∀ (fpow : ℚ → ℚ → ℚ) (series : List PricePoint), series.length < 200 →
      simulate fpow series = ⟨[], [], [], false, 0⟩) := by
  refine ⟨?_, ?_, ?_⟩
  · intro fpow closes tss i s hm
    unfold step
    by_cases hi : 199 < i
    · rw [if_pos ⟨hm, hi⟩]
      by_cases hb : buyCond closes i
      · rw [if_pos hb]
        simp only [buyCond] at hb
        exact iff_of_true rfl ⟨hi, hb⟩
      · rw [if_neg hb]
        simp only [buyCond] at hb
        exact iff_of_false (by simp [hm]) (fun hx => hb hx.2)
    · rw [if_neg (fun hc => hi hc.2), if_neg (fun hc => hi hc.2)]
      exact iff_of_false (by simp [hm]) (fun hx => hi hx.1)
  · intro fpow closes tss i s hm hi hb
    unfold step
    rw [if_pos ⟨hm, hi⟩, if_pos hb]
  · intro fpow series hlen
    have h1 : runLoop fpow (closesOf series) (tssOf series) = initState := by
      unfold runLoop
      apply runUpTo_eq_init
      have h2 : (closesOf series).length = series.length := by simp [closesOf]
      omega
    simp only [simulate, h1]
    simp [initState]

/-- C4 (amended): for every completed trade, when duration > 0 the stored
annual gain is `((quantity*sell_price/investment) ** (365/duration) - 1)*100`
(the script's exponent `1/(duration/365)` equals `365/duration` exactly);
when duration = 0 the gain cell holds the NUMBER 0 — it is not omitted — and
no division by zero occurs; profit is computed and stored either way. -/
theorem annual_gain_formula (fpow : ℚ → ℚ → ℚ) (series : List PricePoint)
    (t : TradeRecord) (ht : t ∈ (simulate fpow series).trades)
    (hst : t.status = TradeStatus.completed) :
    (0 < t.duration_days → t.annual_gain =
      some ((fpow (t.quantity * t.sell_price / investment)
        (365 / (t.duration_days : ℚ)) - 1) * 100)) ∧
    (t.duration_days = 0 → t.annual_gain = some 0) ∧
    t.profit_or_loss = t.quantity * t.sell_price - investment := by
  have hinv := runLoop_inv fpow (closesOf series) (tssOf series)
  have hmem := mem_loop_of_completed ht hst
  obtain ⟨-, j, k, hj199, hjk, hkn, hklen, hbp, hets, hq, hsp, hexit, hlt,
    hpnl, hdur, hgain⟩ := hinv.ledger t hmem
  refine ⟨?_, ?_, hpnl⟩
  · intro hd
    rw [hgain, if_pos hd, one_div_div]
  · intro hd
    rw [hgain, hd]
    simp

/-- C5: at most one transition fires per row (the buy branch extends only the
buy markers, the sell branch only the sell markers, never both); throughout
the run the number of buys equals the number of sells plus one exactly when
the position is open, so at most one position is open at any time; and in the
accumulate-variant `calculate_trades` the `if/elif` shape likewise appends at
most one trade per row. -/
theorem single_position_and_one_transition :
    (∀ (fpow : ℚ → ℚ → ℚ) (closes : List ℚ) (tss : List ℕ) (i : ℕ) (s : SimState),
      ¬(s.buy_markers.length < (step fpow closes tss i s).buy_markers.length ∧
        s.sell_markers.length < (step fpow closes tss i s).sell_markers.length)) ∧
    (∀ (fpow : ℚ → ℚ → ℚ) (closes : List ℚ) (tss : List ℕ) (n : ℕ),
      n ≤ closes.length →
      (runUpTo fpow closes tss n).buy_markers.length =
        (runUpTo fpow closes tss n).sell_markers.length +
          (if (runUpTo fpow closes tss n).in_market = true then 1 else 0)) ∧
    (∀ (s : BseState) (row : BseRow),
      (bseStep s row).trades.length ≤ s.trades.length + 1) := by
  refine ⟨?_, ?_, ?_⟩
  · intro fpow closes tss i s
    unfold step
    by_cases h1 : s.in_market = false ∧ 199 < i
    · rw [if_pos h1]
      by_cases hb : buyCond closes i
      · rw [if_pos hb]
        intro hx
        exact lt_irrefl _ hx.2
      · rw [if_neg hb]
        intro hx
        exact lt_irrefl _ hx.1
    · rw [if_neg h1]
      by_cases h2 : s.in_market = true ∧ 199 < i
      · rw [if_pos h2]
        by_cases hsl : sellCond closes i s.buy_price
        · rw [if_pos hsl]
          intro hx
          exact lt_irrefl _ hx.1
        · rw [if_neg hsl]
          intro hx
          exact lt_irrefl _ hx.1
      · rw [if_neg h2]
        intro hx
        exact lt_irrefl _ hx.1
  · intro fpow closes tss n hn
    exact (runUpTo_inv fpow closes tss n hn).buysLen
  · intro s row
    unfold bseStep
    by_cases h1 : row.buy_signal = true
    · rw [if_pos h1]
      simp
    · rw [if_neg h1]
      by_cases h2 : row.sell_signal = true ∧ 0 < s.holdings
      · rw [if_pos h2]
        simp
      · rw [if_neg h2]
        simp

/-- C6: when the state is still LONG after the last row, exactly one
`'Holding'` row is emitted; it carries the unrealized P/L
`quantity * (last_close - entry_price)` (also reported as `unrealized_pnl`),
a duration measured against the last timestamp, an empty annual-gain cell and
no exit date; the run is not an error. -/
theorem still_long_emits_one_holding (fpow : ℚ → ℚ → ℚ) (series : List PricePoint)
    (hpos : ∀ p ∈ series, 0 < p.close)
    (hm : (runLoop fpow (closesOf series) (tssOf series)).in_market = true) :
    ((simulate fpow series).trades.filter
        fun t => t.status == TradeStatus.holding).length = 1 ∧
    ∀ t ∈ (simulate fpow series).trades, t.status = TradeStatus.holding →
      t.exit_ts = none ∧ t.annual_gain = none ∧
      t.profit_or_loss = t.quantity *
        ((closesOf series).getD ((closesOf series).length - 1) 0 - t.buy_price) ∧
      t.profit_or_loss = (simulate fpow series).unrealized_pnl ∧
      t.duration_days = ((tssOf series).getD ((tssOf series).length - 1) 0 : ℤ) -
        (t.entry_ts : ℤ) := by
  have hinv := runLoop_inv fpow (closesOf series) (tssOf series)
  have hall : ∀ t ∈ (runLoop fpow (closesOf series) (tssOf series)).trades,
      t.status = TradeStatus.completed := fun t ht => (hinv.ledger t ht).1
  obtain ⟨j, hj199, hjn, hjlen, hbp, hch, hets⟩ := hinv.mkt hm
  have hpos2 : 0 < (closesOf series).getD j 0 := by
    rw [List.getD_eq_getElem _ _ hjlen]
    have hj3 : j < series.length := by
      have := hjlen
      simpa [closesOf] using this
    simp only [closesOf, List.getElem_map]
    exact hpos _ (List.getElem_mem hj3)
  constructor
  · rw [simulate_market hm]
    show (((runLoop fpow (closesOf series) (tssOf series)).trades ++
      [mkHolding (closesOf series) (tssOf series)
        (runLoop fpow (closesOf series) (tssOf series))]).filter
        fun t => t.status == TradeStatus.holding).length = 1
    rw [List.filter_append]
    have h1 : ((runLoop fpow (closesOf series) (tssOf series)).trades.filter
        fun t => t.status == TradeStatus.holding) = [] := by
      rw [List.filter_eq_nil_iff]
      intro a ha
      rw [hall a ha]
      simp
    rw [h1]
    simp [mkHolding, List.filter]
  · intro t ht hst
    rw [simulate_market hm] at ht
    rcases List.mem_append.1 ht with hin | hin
    · rw [hall t hin] at hst
      exact absurd hst (by simp)
    · rw [List.mem_singleton] at hin
      subst hin
      rw [simulate_market hm]
      refine ⟨rfl, rfl, ?_, rfl, rfl⟩
      show (runLoop fpow (closesOf series) (tssOf series)).current_holding *
          (closesOf series).getD ((closesOf series).length - 1) 0 - investment =
        (runLoop fpow (closesOf series) (tssOf series)).current_holding *
          ((closesOf series).getD ((closesOf series).length - 1) 0 -
            (runLoop fpow (closesOf series) (tssOf series)).buy_price)
      rw [mul_sub]
      have hqb : (runLoop fpow (closesOf series) (tssOf series)).current_holding *
          (runLoop fpow (closesOf series) (tssOf series)).buy_price = investment := by
        rw [hch, hbp]
        exact div_mul_cancel₀ investment (ne_of_gt hpos2)
      rw [hqb]

/-- C7: for every completed trade, the stored profit equals
`quantity * (sell_price - buy_price)` exactly (the script's
`current_holding * sell_price - investment` coincides with it in exact
arithmetic since `quantity = investment / buy_price`), and
`quantity * buy_price` recovers the fixed investment exactly. -/
theorem completed_pnl_formula (fpow : ℚ → ℚ → ℚ) (series : List PricePoint)
    (hpos : ∀ p ∈ series, 0 < p.close) (t : TradeRecord)
    (ht : t ∈ (simulate fpow series).trades)
    (hst : t.status = TradeStatus.completed) :
    t.profit_or_loss = t.quantity * (t.sell_price - t.buy_price) ∧
    t.quantity * t.buy_price = investment := by
  have hinv := runLoop_inv fpow (closesOf series) (tssOf series)
  have hmem := mem_loop_of_completed ht hst
  obtain ⟨-, j, k, hj199, hjk, hkn, hklen, hbp, hets, hq, hsp, hexit, hlt,
    hpnl, hdur, hgain⟩ := hinv.ledger t hmem
  have hj2 : j < (closesOf series).length := lt_trans hjk hklen
  have hpos2 : 0 < (closesOf series).getD j 0 := by
    rw [List.getD_eq_getElem _ _ hj2]
    have hj3 : j < series.length := by
      have := hj2
      simpa [closesOf] using this
    simp only [closesOf, List.getElem_map]
    exact hpos _ (List.getElem_mem hj3)
  have hqb : t.quantity * t.buy_price = investment := by
    rw [hq, hbp]
    exact div_mul_cancel₀ investment (ne_of_gt hpos2)
  refine ⟨?_, hqb⟩
  rw [hpnl, mul_sub, hqb]

/-- C8: for every series, window and row, the rolling mean equals the simple
moving average of the `w` most recent closes ending at that row (undefined
when fewer than `w` points exist), and it is causal: it depends only on the
closes at rows `≤ i`, so two series agreeing up to row `i` give identical
values there. -/
theorem rolling_mean_is_sma_and_causal (closes : List ℚ) (w i : ℕ) :
    rollingMean closes w i = smaSpec closes w i ∧
    ((rollingMean closes w i).isSome ↔ (w ≤ i + 1 ∧ i < closes.length)) ∧
    (∀ closes2 : List ℚ, closes.take (i + 1) = closes2.take (i + 1) →
      rollingMean closes w i = rollingMean closes2 w i) := by
  refine ⟨rollingMean_eq_smaSpec closes w i, ?_, ?_⟩
  · unfold rollingMean
    by_cases hc : w ≤ i + 1 ∧ i < closes.length
    · rw [if_pos hc]
      simpa using hc
    · rw [if_neg hc]
      simpa using hc
  · intro closes2 h
    rw [rollingMean_eq_smaSpec, rollingMean_eq_smaSpec]
    exact smaSpec_causal closes closes2 w i h

theorem marker_from_series {fpow : ℚ → ℚ → ℚ} {series : List PricePoint} :
    ∀ m ∈ (simulate fpow series).buy_markers ++ (simulate fpow series).sell_markers,
      ∃ j, j < series.length ∧ m.1 = (tssOf series).getD j 0 ∧
        m.2 = (closesOf series).getD j 0 := by
  intro m hm
  have hinv := runLoop_inv fpow (closesOf series) (tssOf series)
  have hmk : m ∈ (runLoop fpow (closesOf series) (tssOf series)).buy_markers ++
      (runLoop fpow (closesOf series) (tssOf series)).sell_markers := by
    cases hb : (runLoop fpow (closesOf series) (tssOf series)).in_market
    · rw [simulate_flat hb] at hm
      exact hm
    · rw [simulate_market hb] at hm
      exact hm
  have hlen : (closesOf series).length = series.length := by simp [closesOf]
  rcases List.mem_append.1 hmk with hx | hx
  · obtain ⟨j, hj1, hj2, hj3, hj4⟩ := hinv.buyMk m hx
    exact ⟨j, hlen ▸ hj3, hj4⟩
  · obtain ⟨j, hj1, hj2, hj3, hj4⟩ := hinv.sellMk m hx
    exact ⟨j, hlen ▸ hj3, hj4⟩

/-- C9: a row with a missing (NaN) close can never carry a buy or a sell
(every marker's timestamp belongs to a row whose close is present), and the
walk is exactly the walk over the remaining rows: removing a NaN row from
anywhere in the input leaves the whole result unchanged (local recovery, not
an abort). -/
theorem nan_close_skipped :
    (∀ (fpow : ℚ → ℚ → ℚ) (raw : List RawPoint),
      ∀ m ∈ (simulateRaw fpow raw).buy_markers ++ (simulateRaw fpow raw).sell_markers,
        ∃ p, p ∈ raw ∧ p.close ≠ none ∧ p.ts = m.1) ∧
    (∀ (fpow : ℚ → ℚ → ℚ) (xs : List RawPoint) (p : RawPoint) (ys : List RawPoint),
      p.close = none → simulateRaw fpow (xs ++ p :: ys) = simulateRaw fpow (xs ++ ys)) := by
  constructor
  · intro fpow raw m hm
    obtain ⟨j, hj, hts, hcl⟩ := marker_from_series m hm
    have hj2 : j < (tssOf (dropnaClose raw)).length := by
      simpa [tssOf] using hj
    have hj3 : j < (dropnaClose raw).length := by
      simpa [tssOf] using hj2
    have hts2 : m.1 = ((dropnaClose raw)[j]).ts := by
      rw [hts, List.getD_eq_getElem _ _ hj2]
      simp only [tssOf, List.getElem_map]
    have hmem : (dropnaClose raw)[j] ∈ dropnaClose raw := List.getElem_mem hj3
    unfold dropnaClose at hmem
    obtain ⟨p, hp, hfp⟩ := List.mem_filterMap.1 hmem
    refine ⟨p, hp, ?_, ?_⟩
    · intro hnone
      rw [hnone] at hfp
      exact Option.noConfusion hfp
    · cases hc : p.close with
      | none =>
          rw [hc] at hfp
          exact absurd hfp (by simp)
      | some c =>
          rw [hc] at hfp
          rw [Option.map_some'] at hfp
          rw [hts2]
          exact congrArg PricePoint.ts (Option.some.inj hfp)
  · intro fpow xs p ys hp
    unfold simulateRaw
    have hd : dropnaClose (xs ++ p :: ys) = dropnaClose (xs ++ ys) := by
      unfold dropnaClose
      rw [List.filterMap_append, List.filterMap_append,
        List.filterMap_cons_none (by rw [hp]; rfl)]
    rw [hd]

/-! Concrete runs: counterexamples and witnesses.  `Rat.add`/`mul`/`inv`/`sub`
are irreducible by default; making them locally semireducible lets `decide`
evaluate the runs above in the kernel. -/

/-- The one `'Completed'` row the run over `seriesB` produces (zero-day
duration, gain cell holding the number 0). -/
def recordB : TradeRecord :=
  ⟨200, some 200, 0, 0, 201, 100000, 100000 / 201, 9979900000 / 201, some 0,
    TradeStatus.completed⟩

/-- The one `'Completed'` row the run over `seriesC` produces (one-day
duration; with `fpow0` the gain cell is `(0 - 1) * 100 = -100`). -/
def recordC : TradeRecord :=
  ⟨200, some 201, 1, 1 / 30, 201, 100000, 100000 / 201, 9979900000 / 201,
    some (-100), TradeStatus.completed⟩

/-- A LONG state with entry price 5, used to exercise the sell step. -/
def stateW : SimState := ⟨true, 5, 0, 0, [], [], []⟩

/-- A one-row series, far below the warm-up window. -/
def seriesShort : List PricePoint := [⟨0, 10⟩]

/-- One buy-signal row for the accumulate variant. -/
def bseRowW : BseRow := ⟨0, 50, true, false⟩

/-- The accumulate variant's initial state. -/
def bseStateW : BseState := ⟨0, 0, 0, 0, []⟩

section EvalWitnesses

attribute [local semireducible] Rat.add Rat.mul Rat.inv Rat.sub

set_option maxRecDepth 2000000

/-- C1 is false as stated: on `seriesA` the run ends still holding, the
holding row's unrealized P/L (-100000/201) is summed into the consolidated
`'Total Profit/Loss'`, so that total differs from the completed-rows-only sum
(which is 0) even though the unrealized P/L is also reported separately. -/
theorem total_profit_includes_unrealized_cex :
    totalProfit (simulate fpow0 seriesA) ≠ completedProfit (simulate fpow0 seriesA) ∧
    completedProfit (simulate fpow0 seriesA) = 0 ∧
    unrealizedFinal (simulate fpow0 seriesA) = some (-(100000 / 201 : ℚ)) ∧
    totalProfit (simulate fpow0 seriesA) = -(100000 / 201 : ℚ) := by
  refine ⟨by decide, by decide, by decide, by decide⟩

/-- C4 is false as stated: on `seriesB` the run emits one completed trade
with duration 0 whose annual-gain cell holds the number 0 — it is not
omitted. -/
theorem annual_gain_zero_duration_cex :
    (simulate fpow0 seriesB).trades.map
      (fun t => (t.status, t.duration_days, t.annual_gain)) =
      [(TradeStatus.completed, 0, some 0)] ∧
    ∀ t ∈ (simulate fpow0 seriesB).trades, t.annual_gain ≠ none := by
  refine ⟨by decide, by decide⟩

theorem annual_gain_formula_witness :
    recordB ∈ (simulate fpow0 seriesB).trades ∧
    recordB.status = TradeStatus.completed ∧
    recordB.duration_days = 0 ∧
    recordB.annual_gain = some 0 := by
  have hmem : recordB ∈ (simulate fpow0 seriesB).trades := by decide
  exact ⟨hmem, rfl, rfl, (annual_gain_formula fpow0 seriesB recordB hmem rfl).2.1 rfl⟩

theorem sell_characterization_witness :
    stateW.in_market = true ∧ (199 : ℕ) < 200 ∧
    ((step fpow0 [] [] 200 stateW).in_market = false ↔
      (smaAt [] 200 200 < smaAt [] 100 200 ∧ smaAt [] 100 200 < smaAt [] 50 200 ∧
       smaAt [] 50 200 < smaAt [] 20 200 ∧ smaAt [] 20 200 < List.getD [] 200 0 ∧
       stateW.buy_price < List.getD [] 200 0)) ∧
    ((tssOf seriesC).Pairwise (· < ·) ∧
      ∀ t ∈ (simulate fpow0 seriesC).trades, t.status = TradeStatus.completed →
        t.buy_price < t.sell_price ∧ ∃ e, t.exit_ts = some e ∧ t.entry_ts < e) := by
  have hpw : (tssOf seriesC).Pairwise (· < ·) := by decide
  exact ⟨rfl, by decide,
    sell_characterization_and_no_loss.1 fpow0 [] [] 200 stateW rfl (by decide),
    hpw, sell_characterization_and_no_loss.2 fpow0 seriesC hpw⟩

theorem buy_characterization_witness :
    initState.in_market = false ∧ (199 : ℕ) < 200 ∧ buyCond (closesOf seriesA) 200 ∧
    step fpow0 (closesOf seriesA) (tssOf seriesA) 200 initState =
      { initState with
        buy_price := (closesOf seriesA).getD 200 0,
        current_holding := investment / (closesOf seriesA).getD 200 0,
        entry_ts := (tssOf seriesA).getD 200 0,
        in_market := true,
        buy_markers := initState.buy_markers ++
          [((tssOf seriesA).getD 200 0, (closesOf seriesA).getD 200 0)] } ∧
    (seriesShort.length < 200 ∧ simulate fpow0 seriesShort = ⟨[], [], [], false, 0⟩) := by
  have hb : buyCond (closesOf seriesA) 200 := by decide
  have hs : seriesShort.length < 200 := by decide
  exact ⟨rfl, by decide, hb,
    buy_characterization_and_short_series.2.1 fpow0 (closesOf seriesA) (tssOf seriesA)
      200 initState rfl (by decide) hb,
    hs, buy_characterization_and_short_series.2.2 fpow0 seriesShort hs⟩

theorem single_position_witness :
    (¬(initState.buy_markers.length < (step fpow0 [] [] 0 initState).buy_markers.length ∧
       initState.sell_markers.length < (step fpow0 [] [] 0 initState).sell_markers.length)) ∧
    ((202 : ℕ) ≤ (closesOf seriesA).length ∧
      (runUpTo fpow0 (closesOf seriesA) (tssOf seriesA) 202).buy_markers.length =
        (runUpTo fpow0 (closesOf seriesA) (tssOf seriesA) 202).sell_markers.length +
          (if (runUpTo fpow0 (closesOf seriesA) (tssOf seriesA) 202).in_market = true
            then 1 else 0)) ∧
    (bseStep bseStateW bseRowW).trades.length ≤ bseStateW.trades.length + 1 := by
  have hn : (202 : ℕ) ≤ (closesOf seriesA).length := by decide
  exact ⟨single_position_and_one_transition.1 fpow0 [] [] 0 initState,
    ⟨hn, single_position_and_one_transition.2.1 fpow0 (closesOf seriesA) (tssOf seriesA) 202 hn⟩,
    single_position_and_one_transition.2.2 bseStateW bseRowW⟩

theorem still_long_emits_one_holding_witness :
    (∀ p ∈ seriesA, 0 < p.close) ∧
    (runLoop fpow0 (closesOf seriesA) (tssOf seriesA)).in_market = true ∧
    (((simulate fpow0 seriesA).trades.filter
        fun t => t.status == TradeStatus.holding).length = 1 ∧
      ∀ t ∈ (simulate fpow0 seriesA).trades, t.status = TradeStatus.holding →
        t.exit_ts = none ∧ t.annual_gain = none ∧
        t.profit_or_loss = t.quantity *
          ((closesOf seriesA).getD ((closesOf seriesA).length - 1) 0 - t.buy_price) ∧
        t.profit_or_loss = (simulate fpow0 seriesA).unrealized_pnl ∧
        t.duration_days = ((tssOf seriesA).getD ((tssOf seriesA).length - 1) 0 : ℤ) -
          (t.entry_ts : ℤ)) := by
  have hp : ∀ p ∈ seriesA, 0 < p.close := by decide
  have hm : (runLoop fpow0 (closesOf seriesA) (tssOf seriesA)).in_market = true := by decide
  exact ⟨hp, hm, still_long_emits_one_holding fpow0 seriesA hp hm⟩

theorem completed_pnl_formula_witness :
    (∀ p ∈ seriesC, 0 < p.close) ∧
    recordC ∈ (simulate fpow0 seriesC).trades ∧
    recordC.status = TradeStatus.completed ∧
    (recordC.profit_or_loss = recordC.quantity * (recordC.sell_price - recordC.buy_price) ∧
     recordC.quantity * recordC.buy_price = investment) := by
  have hp : ∀ p ∈ seriesC, 0 < p.close := by decide
  have hmem : recordC ∈ (simulate fpow0 seriesC).trades := by decide
  exact ⟨hp, hmem, rfl, completed_pnl_formula fpow0 seriesC hp recordC hmem rfl⟩

theorem rolling_mean_causal_witness :
    ([1, 2, 3] : List ℚ).take 2 = ([1, 2, 4] : List ℚ).take 2 ∧
    rollingMean [1, 2, 3] 2 1 = rollingMean [1, 2, 4] 2 1 := by
  have h : ([1, 2, 3] : List ℚ).take 2 = ([1, 2, 4] : List ℚ).take 2 := rfl
  exact ⟨h, (rolling_mean_is_sma_and_causal [1, 2, 3] 2 1).2.2 [1, 2, 4] h⟩

theorem nan_close_skipped_witness :
    ((200 : ℕ), (201 : ℚ)) ∈ (simulateRaw fpow0 rawD).buy_markers ++
      (simulateRaw fpow0 rawD).sell_markers ∧
    (∃ p, p ∈ rawD ∧ p.close ≠ none ∧ p.ts = ((200 : ℕ), (201 : ℚ)).1) ∧
    ((⟨1, none⟩ : RawPoint).close = none ∧
      simulateRaw fpow0 ([⟨0, some 5⟩] ++ (⟨1, none⟩ : RawPoint) :: [⟨2, some 6⟩]) =
        simulateRaw fpow0 ([⟨0, some 5⟩] ++ [⟨2, some 6⟩])) := by
  have hm : ((200 : ℕ), (201 : ℚ)) ∈ (simulateRaw fpow0 rawD).buy_markers ++
      (simulateRaw fpow0 rawD).sell_markers := by decide
  exact ⟨hm, nan_close_skipped.1 fpow0 rawD _ hm, rfl,
    nan_close_skipped.2 fpow0 [⟨0, some 5⟩] ⟨1, none⟩ [⟨2, some 6⟩] rfl⟩

end EvalWitnesses
